import Mathlib

/-!
Verification of the lsli skid pipeline (src/lsli/main.py) against its
natural-language specification.

The development shallowly embeds the data-reconciliation and
coordinate-normalization pipeline:

* `load_records_from_graphql` — the offset/limit pagination loop of
  `PointData.load_records_from_graphql`, with the backing GraphQL source
  modelled as a finite list of records (a page at `offset` is
  `(server.drop offset).take limit`) and the unbounded `while` loop
  modelled with explicit fuel (`none` = the loop has not terminated
  within the given fuel).
* `spatialize_point_data` — `PointData.spatialize_point_data`:
  partitioning on null coordinates, the `latitude < 100` / `latitude > 100`
  datum split, and reprojection of both groups to EPSG 3857.  Coordinates
  are embedded as exact rationals; geometry construction and actual
  reprojection arithmetic live in geopandas/pyproj and are represented by
  tagging each output row with its source CRS and final CRS.
  `pd.concat` of an empty list raises, hence the `Option` result.
* `cleanZipColumn` — the ZIP treatment of `PointData.clean_point_data`
  (`astype(str).str[:5].astype("Int64")`).  `astype(str)` renders a
  missing value as the string "nan"; `astype("Int64")` on a
  non-numeric string raises, modelled as `none` at column level.
* `load_systems_from_sheet` / `load_system_links_from_gsheet` — the two
  Google-sheet loaders of `GoogleSheetData` (header promotion and
  empty-string-to-NaN conversion happen only in the former).
* `clean_approved_systems`, `clean_system_links`,
  `merge_systems_and_geometries` — the reconciliation stages of
  `GoogleSheetData`.  `str.strip("utah")` strips characters of the set
  u,t,a,h from both ends; `astype(int)` on a non-digit remainder raises
  (`Option`).  `pd.to_datetime(..., format="mixed")` is modelled on the
  "M/D/YYYY[ HH:MM]" shapes occurring in the sheet by a monotone numeric
  encoding.  `sort_values` is modelled by the stable `insertionSort`
  (pandas' default quicksort is unstable; the claims proved below do not
  depend on the tie order).  Python `dict` literals are modelled by an
  association list where a repeated key overwrites the value in place.
-/

/-! ### Generic helpers -/

/-- `optionMap f l` models applying a fallible (raising) element-wise
conversion to a whole pandas column: any failing cell aborts the whole
conversion. -/
def optionMap {α β : Type} (f : α → Option β) : List α → Option (List β)
  | [] => some []
  | x :: xs => do
    let y ← f x
    let ys ← optionMap f xs
    pure (y :: ys)

/-- `dropDupKeepLast key l` models `DataFrame.drop_duplicates(subset=key,
keep="last")`: a row survives iff no later row has the same key, and the
surviving rows keep their relative order. -/
def dropDupKeepLast {α κ : Type} [DecidableEq κ] (key : α → κ) : List α → List α
  | [] => []
  | x :: xs =>
    if xs.any (fun y => key y = key x) then dropDupKeepLast key xs
    else x :: dropDupKeepLast key xs

/-- `dictInsert d k v` models `d[k] = v` on a Python `dict` represented as
an association list in insertion order: an existing key keeps its
position and gets the new value, a new key is appended. -/
def dictInsert {κ β : Type} [DecidableEq κ] (d : List (κ × β)) (k : κ) (v : β) :
    List (κ × β) :=
  if d.any (fun p => p.1 = k) then d.map (fun p => if p.1 = k then (k, v) else p)
  else d ++ [(k, v)]

/-- `dictOfPairs key val l` models a Python dict comprehension
`{key(x): val(x) for x in l}`. -/
def dictOfPairs {α κ β : Type} [DecidableEq κ] (key : α → κ) (val : α → β)
    (l : List α) : List (κ × β) :=
  l.foldl (fun d x => dictInsert d (key x) (val x)) []

/-- Numeric value of a digit string, most significant digit first. -/
def natOfDigits (cs : List Char) : Nat :=
  cs.foldl (fun a c => a * 10 + (c.toNat - 48)) 0

/-- Python `int(s)` restricted to the shapes that occur here: succeeds
exactly on a nonempty all-digit string, raises (`none`) otherwise. -/
def pyIntOfChars (cs : List Char) : Option Int :=
  if cs ≠ [] ∧ cs.all Char.isDigit then some ((natOfDigits cs : Nat) : Int)
  else none

/-- Python `str.strip(chars)`: remove characters belonging to `cs` from
both ends of the character list. -/
def stripEnds (cs : List Char) (l : List Char) : List Char :=
  ((l.dropWhile (fun c => c ∈ cs)).reverse.dropWhile (fun c => c ∈ cs)).reverse

/-- The character set of the literal `"utah"` passed to `str.strip`. -/
def utahChars : List Char := ['u', 't', 'a', 'h']

/-- ASCII lowering of one character (`str.lower()` on the identifiers at
hand, which are ASCII). -/
def lowerChar (c : Char) : Char :=
  if 65 ≤ c.toNat ∧ c.toNat ≤ 90 then Char.ofNat (c.toNat + 32) else c

/-- PWSID normalization used throughout `main.py`:
`s.lower().strip("utah")` then `int(...)`; `none` models the `ValueError`
raised by `astype(int)` when the remainder is not a pure digit string. -/
def pwsidNorm (s : String) : Option Int :=
  pyIntOfChars (stripEnds utahChars (s.toList.map lowerChar))

/-- Whether the string contains at least one digit; the pandas filter
`str.match(r"^[^\d]*$")` marks exactly the rows where this is false. -/
def hasDigit (s : String) : Bool := s.toList.any Char.isDigit

/-- `replace("", np.nan)` on a single cell. -/
def emptyToNa (s : String) : Option String := if s = "" then none else some s

/-- Python `str()` of a pandas cell: a missing value (NaN) renders as the
string "nan". -/
def pyStr (c : Option String) : String := c.getD "nan"

/-- Digit list to `Nat`, raising (`none`) on empty or non-digit input. -/
def pyNatOfChars (cs : List Char) : Option Nat :=
  if cs ≠ [] ∧ cs.all Char.isDigit then some (natOfDigits cs) else none

/-- Split a character list at every occurrence of `sep` (the pieces keep
their order, separators are dropped; `n + 1` pieces for `n`
separators). -/
def splitOnChar (sep : Char) : List Char → List (List Char)
  | [] => [[]]
  | c :: cs =>
    let r := splitOnChar sep cs
    if c = sep then [] :: r
    else (c :: r.headD []) :: r.tail

/-- `pd.to_datetime(..., format="mixed")` on the timestamp shapes of the
approved-systems sheet, "M/D/YYYY" and "M/D/YYYY HH:MM", encoded as a
single `Nat` that is strictly monotone in (year, month, day, hour,
minute); unparseable input raises (`none`). -/
def parseMDY (s : String) : Option Nat :=
  match splitOnChar '/' s.toList with
  | [ms, ds, rest] =>
    match splitOnChar ' ' rest with
    | [ys] => do
        let m ← pyNatOfChars ms
        let d ← pyNatOfChars ds
        let y ← pyNatOfChars ys
        pure (((y * 12 + m) * 31 + d) * 1440)
    | [ys, hm] =>
      match splitOnChar ':' hm with
      | [hs, mins] => do
          let m ← pyNatOfChars ms
          let d ← pyNatOfChars ds
          let y ← pyNatOfChars ys
          let hh ← pyNatOfChars hs
          let mm ← pyNatOfChars mins
          pure ((((y * 12 + m) * 31 + d) * 1440) + hh * 60 + mm)
      | _ => none
    | _ => none
  | _ => none

/-! ### Paginated GraphQL fetcher (`PointData.load_records_from_graphql`) -/

/-- One GraphQL response page: the records of the backing source from
`offset`, at most `limit` of them. -/
def pageAt {α : Type} (server : List α) (offset limit : Nat) : List α :=
  (server.drop offset).take limit

/-- The `while result_length == limit` loop.  State: current offset, the
accumulated `records_list`, and the list of offsets requested so far.
`fuel` bounds the number of iterations we are willing to observe; `none`
means the loop did not terminate within `fuel` requests. -/
def fetchLoop {α : Type} (server : List α) (limit : Nat) :
    Nat → Nat → List α → List Nat → Option (List α × List Nat)
  | 0, _, _, _ => none
  | fuel + 1, offset, acc, reqs =>
    let page := pageAt server offset limit
    if page.length = limit then
      fetchLoop server limit fuel (offset + limit) (acc ++ page) (reqs ++ [offset])
    else some (acc ++ page, reqs ++ [offset])

/-- `PointData.load_records_from_graphql`: `result_length` starts equal to
`limit`, so the loop body always runs at least once, starting at offset 0
with an empty accumulator. -/
def load_records_from_graphql {α : Type} (server : List α) (limit fuel : Nat) :
    Option (List α × List Nat) :=
  fetchLoop server limit fuel 0 [] []

/-! ### Point spatializer (`PointData.spatialize_point_data`) -/

/-- One record of the `getLccrMapUGRC` frame; coordinates are nullable
floats, embedded as exact rationals; all remaining attribute columns are
collapsed into an opaque `payload`. -/
structure PointRecord where
  latitude : Option ℚ
  longitude : Option ℚ
  payload : String
deriving DecidableEq, Repr

/-- The filter `self.records["latitude"] < 100` (on the frame already
stripped of null coordinates). -/
def latBelow100 (r : PointRecord) : Bool :=
  match r.latitude with
  | some l => decide (l < 100)
  | none => false

/-- The filter `self.records["latitude"] > 100`. -/
def latAbove100 (r : PointRecord) : Bool :=
  match r.latitude with
  | some l => decide (100 < l)
  | none => false

/-- One row of the spatially-enabled output: the original record, the CRS
the geometry was built in (4326 for the WGS84 group, 26912 for the UTM
group) and the CRS after `to_crs(3857)`. -/
structure SpatialRow where
  record : PointRecord
  sourceCrs : Nat
  crs : Nat
deriving DecidableEq, Repr

/-- The `missing_coords` side report:
`records[records["latitude"].isna() | records["longitude"].isna()]`. -/
def missingCoordRows (records : List PointRecord) : List PointRecord :=
  records.filter (fun r => r.latitude.isNone || r.longitude.isNone)

/-- `records.dropna(subset=["latitude", "longitude"])`. -/
def validCoordRows (records : List PointRecord) : List PointRecord :=
  records.filter (fun r => r.latitude.isSome && r.longitude.isSome)

/-- The WGS84 group (`latitude < 100`), geometry built with `crs=4326`
then reprojected via `to_crs(3857)`. -/
def wgsGroup (records : List PointRecord) : List SpatialRow :=
  ((validCoordRows records).filter latBelow100).map (fun r => SpatialRow.mk r 4326 3857)

/-- The UTM group (`latitude > 100`), geometry built with `crs=26912`
then reprojected via `to_crs(3857)`. -/
def utmGroup (records : List PointRecord) : List SpatialRow :=
  ((validCoordRows records).filter latAbove100).map (fun r => SpatialRow.mk r 26912 3857)

/-- `PointData.spatialize_point_data`: split off rows missing a
coordinate into `missing_coords`, group the rest by the latitude-100
heuristic, build geometry per non-empty group, reproject each group to
3857 and concatenate (WGS84 group first).  `pd.concat([])` raises when
both groups are empty, hence `none`. -/
def spatialize_point_data (records : List PointRecord) :
    Option (List SpatialRow × List PointRecord) :=
  if (wgsGroup records).isEmpty && (utmGroup records).isEmpty then none
  else some (wgsGroup records ++ utmGroup records, missingCoordRows records)

/-! ### Point cleaner (`PointData.clean_point_data`), ZIP treatment -/

/-- `str(cell)[:5]` then integer coercion of one `pws_zipcode` cell:
`astype(str)` renders NaN as "nan", `.str[:5]` truncates, and the
element-wise part of `astype("Int64")` raises on any non-digit string. -/
def cleanZipCell (c : Option String) : Option Int :=
  pyIntOfChars ((pyStr c).take 5).toList

/-- The whole `pws_zipcode` column under
`astype(str).str[:5].astype("Int64")`; a single failing cell makes the
column conversion raise. -/
def cleanZipColumn (col : List (Option String)) : Option (List Int) :=
  optionMap cleanZipCell col

/-! ### Google-sheet loaders -/

/-- A loaded worksheet: column header plus data rows of nullable cells. -/
structure Frame where
  header : List String
  rows : List (List (Option String))
deriving DecidableEq, Repr

/-- `extract.GSheetLoader.load_specific_worksheet_into_dataframe`: the
first physical sheet row becomes the header, the rest become data rows
(all cells present, as strings). -/
def gsheetLoad (sheet : List (List String)) : Frame :=
  { header := sheet.headD []
    rows := (sheet.drop 1).map (fun row => row.map some) }

/-- `GoogleSheetData.load_systems_from_sheet`: load, promote the first
data row (the sheet's second physical row) to the header, drop it, and
`replace("", np.nan)` over the remaining data. -/
def load_systems_from_sheet (sheet : List (List String)) : Frame :=
  let f := gsheetLoad sheet
  { header := (f.rows.headD []).map (fun c => c.getD "")
    rows := (f.rows.drop 1).map (fun row =>
      row.map (fun c => if c = some "" then none else c)) }

/-- `GoogleSheetData.load_system_links_from_gsheet`: a plain load, with no
header promotion and no empty-string replacement. -/
def load_system_links_from_gsheet (sheet : List (List String)) : Frame :=
  gsheetLoad sheet

/-! ### Approved-systems cleaning (`GoogleSheetData.clean_approved_systems`) -/

/-- One row of the approved-systems sheet after column subsetting: the
"PWS ID" cell (nullable), the "Time" cell, and the carried-through
attribute cells. -/
structure ApprovedRaw where
  pwsId : Option String
  time : String
  name : Option String
  approved : Option String
  classification : Option String
deriving DecidableEq, Repr

/-- One cleaned approved-system row. -/
structure ApprovedClean where
  pwsid : Int
  submitted_time : Nat
  name : Option String
  approved : Option String
  classification : Option String
  area_type : String
deriving DecidableEq, Repr

/-- `dropna(subset=["PWS ID"])`. -/
def approvedPresentRows (rows : List ApprovedRaw) : List ApprovedRaw :=
  rows.filter (fun r => r.pwsId.isSome)

/-- The "PWS ID" cell of a row that survived `dropna`, after
`astype(str)`. -/
def approvedIdStr (r : ApprovedRaw) : String := r.pwsId.getD ""

/-- The `invalid_pwsids` report: the identifiers (among rows that have
one) matching `^[^\d]*$`, i.e. containing no digit. -/
def approvedInvalid (rows : List ApprovedRaw) : List String :=
  ((approvedPresentRows rows).map approvedIdStr).filter (fun s => ¬ hasDigit s)

/-- The rows kept after dropping the digit-free identifiers. -/
def approvedValidRows (rows : List ApprovedRaw) : List ApprovedRaw :=
  (approvedPresentRows rows).filter (fun r => hasDigit (approvedIdStr r))

/-- Normalize one kept row: PWSID via `lower().strip("utah")` plus
`astype(int)`, timestamp via `to_datetime(format="mixed")`, constant
`area_type`; either conversion raising aborts the clean. -/
def parseApprovedRow (r : ApprovedRaw) : Option ApprovedClean := do
  let p ← pwsidNorm (approvedIdStr r)
  let t ← parseMDY r.time
  pure { pwsid := p, submitted_time := t, name := r.name, approved := r.approved,
         classification := r.classification, area_type := "Approved System" }

/-- The sort key of `sort_values("submitted_time")`. -/
def timeLE : ApprovedClean → ApprovedClean → Prop :=
  fun a b => a.submitted_time ≤ b.submitted_time

instance : DecidableRel timeLE := fun a b => Nat.decLe a.submitted_time b.submitted_time

instance : IsTotal ApprovedClean timeLE :=
  ⟨fun a b => Nat.le_total a.submitted_time b.submitted_time⟩

instance : IsTrans ApprovedClean timeLE :=
  ⟨fun _ _ _ h h2 => Nat.le_trans h h2⟩

/-- `sort_values("submitted_time")` followed by
`drop_duplicates(subset="PWSID", keep="last")`. -/
def dedupApproved (l : List ApprovedClean) : List ApprovedClean :=
  dropDupKeepLast (fun c => c.pwsid) (l.insertionSort timeLE)

/-- `GoogleSheetData.clean_approved_systems` end to end, returning the
cleaned frame and the `invalid_pwsids` report. -/
def clean_approved_systems (rows : List ApprovedRaw) :
    Option (List ApprovedClean × List String) := do
  let parsed ← optionMap parseApprovedRow (approvedValidRows rows)
  pure (dedupApproved parsed, approvedInvalid rows)

/-! ### Links cleaning (`GoogleSheetData.clean_system_links`) -/

/-- One raw row of the interactive-maps sheet (columns "PWSID",
"Water Systme Name", "Interactive map link"), cells as loaded (empty
string = blank cell, since this loader does no NaN conversion). -/
structure LinkRaw where
  pwsid : String
  name : String
  link : String
deriving DecidableEq, Repr

/-- One cleaned link row. -/
structure LinkClean where
  pwsid : Int
  name : Option String
  link : Option String
  area_type : String
deriving DecidableEq, Repr

/-- `replace("", np.nan)` followed by `dropna(subset=["PWSID"])`. -/
def linkPresentRows (rows : List LinkRaw) : List LinkRaw :=
  rows.filter (fun r => ¬ (r.pwsid = ""))

/-- Normalize one kept link row; the `area_type = "Link"` tag is attached
in the source after deduplication, which is observationally the same per
row. -/
def parseLinkRow (r : LinkRaw) : Option LinkClean := do
  let p ← pwsidNorm r.pwsid
  pure { pwsid := p, name := emptyToNa r.name, link := emptyToNa r.link,
         area_type := "Link" }

/-- `GoogleSheetData.clean_system_links` end to end: returns the kept
rows and the `duplicate_link_pwsids` report, a Python dict keyed by
system name. -/
def clean_system_links (rows : List LinkRaw) :
    Option (List LinkClean × List (Option String × Int)) := do
  let parsed ← optionMap parseLinkRow (linkPresentRows rows)
  let dups := parsed.filter (fun c => 2 ≤ parsed.countP (fun d => d.pwsid = c.pwsid))
  pure (dropDupKeepLast (fun c : LinkClean => c.pwsid) parsed,
        dictOfPairs (fun c : LinkClean => c.name) (fun c => c.pwsid) dups)

/-! ### Merge (`GoogleSheetData.merge_systems_and_geometries`) -/

/-- One row of the concatenated approved-plus-links frame, restricted to
the columns the merge bookkeeping reads (`PWSID`, `System Name`,
`SC, LC, on NTNC` — NaN on link rows — and `area_type`). -/
structure SystemRow where
  pwsid : Int
  name : String
  classification : Option String
  area_type : String
deriving DecidableEq, Repr

/-- One row of the cleaned service-areas layer: `FID` is always present
there, so a merged row with a missing `FID` is exactly an unmatched
row. -/
structure GeomRow where
  pwsid : Int
  fid : Nat
  area : String
deriving DecidableEq, Repr

/-- One row of the merged frame: the left row plus the matched geometry
row, `none` when the left join found no match (NaN `FID`). -/
structure MergedRow where
  sys : SystemRow
  geom : Option GeomRow
deriving DecidableEq, Repr

/-- The merged rows a single left row contributes: one row per matching
geometry row, or a single row with null geometry columns when there is
no match. -/
def joinBlock (s : SystemRow) (geoms : List GeomRow) : List MergedRow :=
  let hits := geoms.filter (fun g => g.pwsid = s.pwsid)
  if hits.isEmpty then [{ sys := s, geom := none }]
  else hits.map (fun g => { sys := s, geom := some g })

/-- `all_systems.merge(geoms, on="PWSID", how="left")`. -/
def leftJoinGeoms (all : List SystemRow) (geoms : List GeomRow) : List MergedRow :=
  all.flatMap (fun s => joinBlock s geoms)

/-- The `missing_geometries` dict comprehension over the unmatched rows,
sorted by PWSID, keyed by PWSID. -/
def missingGeomReport (no_area : List MergedRow) :
    List (Int × (String × Option String × String)) :=
  dictOfPairs (fun m : MergedRow => m.sys.pwsid)
    (fun m => (m.sys.name, m.sys.classification, m.sys.area_type))
    (no_area.insertionSort (fun a b => a.sys.pwsid ≤ b.sys.pwsid))

/-- Result record of the merge stage. -/
structure MergeResult where
  merged : List MergedRow
  missing_geometries : List (Int × (String × Option String × String))
  final_systems : List MergedRow
deriving Repr

/-- `GoogleSheetData.merge_systems_and_geometries`: concatenate approved
systems and links (no cross-deduplication), left-join against the
geometries, report unmatched rows, and drop them from `final_systems`. -/
def merge_systems_and_geometries (systems links : List SystemRow)
    (geoms : List GeomRow) : MergeResult :=
  let merged := leftJoinGeoms (systems ++ links) geoms
  let no_area := merged.filter (fun m => m.geom.isNone)
  { merged := merged
    missing_geometries := missingGeomReport no_area
    final_systems := merged.filter (fun m => m.geom.isSome) }


/-! ### Helper lemmas: `optionMap` -/

theorem optionMap_length {α β : Type} (f : α → Option β) :
    ∀ {l : List α} {ys : List β}, optionMap f l = some ys → ys.length = l.length := by
  intro l
  induction l with
  | nil => intro ys h; simp [optionMap] at h; simp [← h]
  | cons x xs ih =>
    intro ys h
    simp only [optionMap, Option.bind_eq_bind, Option.bind_eq_some] at h
    obtain ⟨y, _, ys', hys', h⟩ := h
    simp only [Option.pure_def, Option.some.injEq] at h
    subst h
    simp [ih hys']

theorem optionMap_none {α β : Type} (f : α → Option β) {l : List α} {x : α}
    (hx : x ∈ l) (hf : f x = none) : optionMap f l = none := by
  induction l with
  | nil => cases hx
  | cons a as ih =>
    rcases List.mem_cons.mp hx with rfl | hx
    · simp [optionMap, hf]
    · cases h : f a with
      | none => simp [optionMap, h]
      | some y => simp [optionMap, h, ih hx]

theorem optionMap_mem {α β : Type} (f : α → Option β) :
    ∀ {l : List α} {ys : List β}, optionMap f l = some ys →
      ∀ {y : β}, y ∈ ys → ∃ x, x ∈ l ∧ f x = some y := by
  intro l
  induction l with
  | nil =>
    intro ys h y hy
    simp [optionMap] at h
    subst h; cases hy
  | cons a as ih =>
    intro ys h y hy
    simp only [optionMap, Option.bind_eq_bind, Option.bind_eq_some] at h
    obtain ⟨b, hb, ys', hys', h⟩ := h
    simp only [Option.pure_def, Option.some.injEq] at h
    subst h
    rcases List.mem_cons.mp hy with rfl | hy
    · exact ⟨a, by simp, by simpa using hb⟩
    · obtain ⟨x, hx, hfx⟩ := ih hys' hy
      exact ⟨x, by simp [hx], hfx⟩

/-! ### Helper lemmas: `dropDupKeepLast` -/

theorem dropDupKeepLast_subset {α κ : Type} [DecidableEq κ] (key : α → κ) :
    ∀ {l : List α} {x : α}, x ∈ dropDupKeepLast key l → x ∈ l := by
  intro l
  induction l with
  | nil => intro x h; cases h
  | cons a as ih =>
    intro x h
    simp only [dropDupKeepLast] at h
    by_cases hc : as.any (fun y => key y = key a)
    · rw [if_pos hc] at h
      exact List.mem_cons_of_mem a (ih h)
    · rw [if_neg hc] at h
      rcases List.mem_cons.mp h with rfl | h2
      · simp
      · exact List.mem_cons_of_mem a (ih h2)

theorem getLastQ_mem {α : Type} : ∀ (l : List α) (a : α), l.getLast? = some a → a ∈ l
  | [], _, h => by cases h
  | [x], a, h => by
      simp only [List.getLast?_singleton, Option.some.injEq] at h
      simp [h]
  | x :: y :: ys, a, h => by
      rw [List.getLast?_cons_cons] at h
      exact List.mem_cons_of_mem x (getLastQ_mem (y :: ys) a h)

theorem dropDupKeepLast_filter {α κ : Type} [DecidableEq κ] (key : α → κ) (p : κ) :
    ∀ l : List α,
      (dropDupKeepLast key l).filter (fun x => key x = p)
        = ((l.filter (fun x => key x = p)).getLast?).toList := by
  intro l
  induction l with
  | nil => simp [dropDupKeepLast]
  | cons a as ih =>
    by_cases hc : as.any (fun y => key y = key a)
    · have hdrop : dropDupKeepLast key (a :: as) = dropDupKeepLast key as := by
        simp only [dropDupKeepLast, hc, if_pos]
      rw [hdrop, ih]
      by_cases hk : key a = p
      · have : ∃ y ∈ as, key y = p := by
          simp only [List.any_eq_true, decide_eq_true_eq] at hc
          obtain ⟨y, hy, hkey⟩ := hc
          exact ⟨y, hy, by rw [hkey, hk]⟩
        have hne : as.filter (fun x => key x = p) ≠ [] := by
          obtain ⟨y, hy, hkey⟩ := this
          intro hnil
          have : y ∈ as.filter (fun x => key x = p) := by
            simp [List.mem_filter, hy, hkey]
          rw [hnil] at this; cases this
        rw [List.filter_cons_of_pos (by simp [hk])]
        cases hfil : as.filter (fun x => key x = p) with
        | nil => exact absurd hfil hne
        | cons b bs => rw [List.getLast?_cons_cons]
      · rw [List.filter_cons_of_neg (by simp [hk])]
    · have hdrop : dropDupKeepLast key (a :: as) = a :: dropDupKeepLast key as := by
        simp only [dropDupKeepLast]
        rw [if_neg hc]
      rw [hdrop]
      by_cases hk : key a = p
      · have hnone : ∀ y ∈ as, ¬ (key y = p) := by
          intro y hy hkey
          apply hc
          simp only [List.any_eq_true, decide_eq_true_eq]
          exact ⟨y, hy, by rw [hkey, ← hk]⟩
        have hfil : as.filter (fun x => key x = p) = [] := by
          rw [List.filter_eq_nil_iff]
          intro y hy
          simpa using hnone y hy
        have hfil2 : (dropDupKeepLast key as).filter (fun x => key x = p) = [] := by
          rw [List.filter_eq_nil_iff]
          intro y hy
          simpa using hnone y (dropDupKeepLast_subset key hy)
        rw [List.filter_cons_of_pos (by simp [hk]), hfil2,
          List.filter_cons_of_pos (by simp [hk]), hfil]
        simp
      · rw [List.filter_cons_of_neg (by simp [hk]), List.filter_cons_of_neg (by simp [hk]),
          ih]

/-! ### Helper lemmas: dict keys -/

theorem mem_keys_dictInsert {κ β : Type} [DecidableEq κ] (d : List (κ × β)) (k : κ)
    (v : β) (q : κ) :
    q ∈ (dictInsert d k v).map Prod.fst ↔ q ∈ d.map Prod.fst ∨ q = k := by
  unfold dictInsert
  by_cases hc : d.any (fun p => p.1 = k)
  · rw [if_pos hc]
    have hkeys : (d.map (fun p => if p.1 = k then (k, v) else p)).map Prod.fst
        = d.map Prod.fst := by
      rw [List.map_map]
      apply List.map_congr_left
      intro p _
      by_cases hp : p.1 = k
      · simp [hp]
      · simp [hp]
    rw [hkeys]
    constructor
    · exact Or.inl
    · rintro (h | rfl)
      · exact h
      · simp only [List.any_eq_true, decide_eq_true_eq] at hc
        obtain ⟨p, hp, hpk⟩ := hc
        exact List.mem_map.mpr ⟨p, hp, hpk⟩
  · rw [if_neg hc]
    simp [List.mem_map, or_comm, eq_comm]

theorem mem_keys_dictOfPairs {α κ β : Type} [DecidableEq κ] (key : α → κ)
    (val : α → β) (l : List α) (q : κ) :
    q ∈ (dictOfPairs key val l).map Prod.fst ↔ q ∈ l.map key := by
  suffices h : ∀ d : List (κ × β),
      q ∈ (l.foldl (fun d x => dictInsert d (key x) (val x)) d).map Prod.fst
        ↔ q ∈ d.map Prod.fst ∨ q ∈ l.map key by
    have := h []
    simpa [dictOfPairs] using this
  induction l with
  | nil => intro d; simp
  | cons x xs ih =>
    intro d
    simp only [List.foldl_cons, List.map_cons, List.mem_cons]
    rw [ih, mem_keys_dictInsert]
    tauto

/-! ### Helper lemmas: counting rows by key -/

theorem countP_key_eq_zero {α κ : Type} [DecidableEq κ] (key : α → κ) {l : List α}
    {p : κ} (h : p ∉ l.map key) : l.countP (fun x => key x = p) = 0 := by
  rw [List.countP_eq_zero]
  intro x hx
  simp only [decide_eq_true_eq]
  intro hk
  exact h (List.mem_map.mpr ⟨x, hx, hk⟩)

theorem countP_key_pos {α κ : Type} [DecidableEq κ] (key : α → κ) {l : List α}
    {p : κ} (h : p ∈ l.map key) : 0 < l.countP (fun x => key x = p) := by
  rw [List.countP_pos_iff]
  obtain ⟨x, hx, hk⟩ := List.mem_map.mp h
  exact ⟨x, hx, by simp [hk]⟩

theorem countP_key_le_one {α κ : Type} [DecidableEq κ] (key : α → κ) :
    ∀ {l : List α}, (l.map key).Nodup → ∀ p : κ,
      l.countP (fun x => key x = p) ≤ 1 := by
  intro l
  induction l with
  | nil => intro _ p; simp
  | cons a as ih =>
    intro hnd p
    simp only [List.map_cons, List.nodup_cons] at hnd
    obtain ⟨ha, hnd⟩ := hnd
    by_cases hk : key a = p
    · rw [List.countP_cons_of_pos _ _ (by simp [hk])]
      have : as.countP (fun x => key x = p) = 0 := by
        apply countP_key_eq_zero
        rw [← hk]
        exact ha
      omega
    · rw [List.countP_cons_of_neg _ _ (by simp [hk])]
      exact ih hnd p

/-! ### Helper lemmas: last element of a sorted list is maximal -/

theorem pairwise_getLast_max {α : Type} {R : α → α → Prop} :
    ∀ {l : List α}, l.Pairwise R → ∀ {r : α}, l.getLast? = some r →
      ∀ {x : α}, x ∈ l → x = r ∨ R x r := by
  intro l
  induction l with
  | nil => intro _ r h; cases h
  | cons a as ih =>
    intro hpw r hlast x hx
    rcases List.pairwise_cons.mp hpw with ⟨hfa, hpw'⟩
    cases as with
    | nil =>
      simp only [List.getLast?_singleton, Option.some.injEq] at hlast
      rcases List.mem_singleton.mp hx with rfl
      exact Or.inl hlast
    | cons b bs =>
      rw [List.getLast?_cons_cons] at hlast
      rcases List.mem_cons.mp hx with rfl | hx'
      · exact Or.inr (hfa r (getLastQ_mem _ _ hlast))
      · exact ih hpw' hlast hx'

/-! ### Helper lemmas: the left join -/

theorem joinBlock_sys {s : SystemRow} {geoms : List GeomRow} {m : MergedRow}
    (h : m ∈ joinBlock s geoms) : m.sys = s := by
  unfold joinBlock at h
  by_cases hE : (geoms.filter (fun g => g.pwsid = s.pwsid)).isEmpty
  · simp only [hE, if_pos] at h
    rcases List.mem_singleton.mp h with rfl
    rfl
  · simp only [hE, if_neg, Bool.false_eq_true, not_false_iff] at h
    obtain ⟨g, _, rfl⟩ := List.mem_map.mp h
    rfl

theorem joinBlock_geom_none {s : SystemRow} {geoms : List GeomRow} {m : MergedRow}
    (h : m ∈ joinBlock s geoms) :
    m.geom = none ↔ s.pwsid ∉ geoms.map (fun g => g.pwsid) := by
  unfold joinBlock at h
  by_cases hE : (geoms.filter (fun g => g.pwsid = s.pwsid)).isEmpty
  · simp only [hE, if_pos] at h
    rcases List.mem_singleton.mp h with rfl
    simp only [true_iff]
    intro hmem
    obtain ⟨g, hg, hpw⟩ := List.mem_map.mp hmem
    rw [List.isEmpty_iff] at hE
    have : g ∈ geoms.filter (fun g => g.pwsid = s.pwsid) := by
      simp [List.mem_filter, hg, hpw]
    rw [hE] at this
    cases this
  · simp only [hE, if_neg, Bool.false_eq_true, not_false_iff] at h
    obtain ⟨g, hg, rfl⟩ := List.mem_map.mp h
    simp only [Option.some_ne_none, false_iff, not_not]
    rcases List.mem_filter.mp hg with ⟨hgg, hpw⟩
    simp only [decide_eq_true_eq] at hpw
    exact List.mem_map.mpr ⟨g, hgg, hpw⟩

theorem joinBlock_geom_some {s : SystemRow} {geoms : List GeomRow} {m : MergedRow}
    {g : GeomRow} (h : m ∈ joinBlock s geoms) (hg : m.geom = some g) :
    g ∈ geoms ∧ g.pwsid = s.pwsid := by
  unfold joinBlock at h
  by_cases hE : (geoms.filter (fun g => g.pwsid = s.pwsid)).isEmpty
  · simp only [hE, if_pos] at h
    rcases List.mem_singleton.mp h with rfl
    cases hg
  · simp only [hE, if_neg, Bool.false_eq_true, not_false_iff] at h
    obtain ⟨g', hg', rfl⟩ := List.mem_map.mp h
    simp only [Option.some.injEq] at hg
    subst hg
    rcases List.mem_filter.mp hg' with ⟨hgg, hpw⟩
    simp only [decide_eq_true_eq] at hpw
    exact ⟨hgg, hpw⟩

theorem joinBlock_countP_ne {s : SystemRow} {geoms : List GeomRow} {p : Int}
    (h : s.pwsid ≠ p) :
    (joinBlock s geoms).countP (fun m => m.sys.pwsid = p) = 0 := by
  rw [List.countP_eq_zero]
  intro m hm
  rw [joinBlock_sys hm]
  simpa using h

theorem joinBlock_countP_eq {s : SystemRow} {geoms : List GeomRow}
    (hnd : (geoms.map (fun g => g.pwsid)).Nodup) (p : Int) (h : s.pwsid = p) :
    (joinBlock s geoms).countP (fun m => m.sys.pwsid = p) = 1 := by
  have hall : ∀ m ∈ joinBlock s geoms, (fun m : MergedRow => decide (m.sys.pwsid = p)) m = true := by
    intro m hm
    simp only [decide_eq_true_eq]
    rw [joinBlock_sys hm]
    exact h
  rw [List.countP_eq_length.mpr hall]
  unfold joinBlock
  by_cases hE : (geoms.filter (fun g => g.pwsid = s.pwsid)).isEmpty
  · simp [hE]
  · simp only [hE, if_neg, Bool.false_eq_true, not_false_iff, List.length_map]
    have hle : (geoms.filter (fun g => g.pwsid = s.pwsid)).length ≤ 1 := by
      rw [← List.countP_eq_length_filter]
      exact countP_key_le_one (fun g : GeomRow => g.pwsid) hnd s.pwsid
    have hpos : 0 < (geoms.filter (fun g => g.pwsid = s.pwsid)).length := by
      rcases List.isEmpty_iff.not.mp hE with h'
      cases hfil : geoms.filter (fun g => g.pwsid = s.pwsid) with
      | nil => exact absurd (by rw [hfil]; rfl) hE
      | cons a as => simp [hfil]
    omega

theorem leftJoin_sys_mem {all : List SystemRow} {geoms : List GeomRow} {m : MergedRow}
    (h : m ∈ leftJoinGeoms all geoms) : m.sys ∈ all := by
  obtain ⟨s, hs, hm⟩ := List.mem_flatMap.mp h
  rw [joinBlock_sys hm]
  exact hs

theorem leftJoin_geom_none {all : List SystemRow} {geoms : List GeomRow} {m : MergedRow}
    (h : m ∈ leftJoinGeoms all geoms) :
    m.geom = none ↔ m.sys.pwsid ∉ geoms.map (fun g => g.pwsid) := by
  obtain ⟨s, hs, hm⟩ := List.mem_flatMap.mp h
  rw [joinBlock_sys hm]
  exact joinBlock_geom_none hm

theorem leftJoin_countP_zero {all : List SystemRow} {geoms : List GeomRow} {p : Int}
    (h : p ∉ all.map (fun s => s.pwsid)) :
    (leftJoinGeoms all geoms).countP (fun m => m.sys.pwsid = p) = 0 := by
  rw [List.countP_eq_zero]
  intro m hm
  simp only [decide_eq_true_eq]
  intro hp
  exact h (List.mem_map.mpr ⟨m.sys, leftJoin_sys_mem hm, hp⟩)

theorem leftJoin_countP_one {all : List SystemRow} {geoms : List GeomRow} {p : Int}
    (hnd : (all.map (fun s => s.pwsid)).Nodup)
    (hmem : p ∈ all.map (fun s => s.pwsid))
    (hgeo : (geoms.map (fun g => g.pwsid)).Nodup) :
    (leftJoinGeoms all geoms).countP (fun m => m.sys.pwsid = p) = 1 := by
  induction all with
  | nil => cases hmem
  | cons a as ih =>
    simp only [List.map_cons, List.nodup_cons] at hnd
    obtain ⟨ha, hnd'⟩ := hnd
    have hsplit : leftJoinGeoms (a :: as) geoms
        = joinBlock a geoms ++ leftJoinGeoms as geoms := by
      simp [leftJoinGeoms]
    rw [hsplit, List.countP_append]
    rw [List.map_cons] at hmem
    rcases List.mem_cons.mp hmem with hpa | hmem'
    · subst hpa
      rw [joinBlock_countP_eq hgeo _ rfl, leftJoin_countP_zero ha]
    · have hne : a.pwsid ≠ p := fun hp => ha (by rw [hp]; exact hmem')
      rw [joinBlock_countP_ne hne, ih hnd' hmem']

/-! ### Helper lemmas: the pagination loop -/

theorem fetchLoop_go {α : Type} (server : List α) (n : Nat) (hn : 0 < n) :
    ∀ (m k fuel : Nat) (acc : List α) (reqs : List Nat),
      k + m = server.length / n → m < fuel →
      fetchLoop server n fuel (k * n) acc reqs =
        some (acc ++ server.drop (k * n),
              reqs ++ (List.range (m + 1)).map (fun i => (k + i) * n)) := by
  intro m
  induction m with
  | zero =>
    intro k fuel acc reqs hk hfuel
    cases fuel with
    | zero => omega
    | succ f =>
      have hk' : k = server.length / n := by omega
      have hshort : server.length - k * n < n := by
        subst hk'
        have hmod := Nat.div_add_mod server.length n
        have hlt := Nat.mod_lt server.length hn
        rw [Nat.mul_comm] at hmod
        generalize hP : server.length / n * n = P at hmod ⊢
        omega
      have hlen : (pageAt server (k * n) n).length = server.length - k * n := by
        simp only [pageAt, List.length_take, List.length_drop]
        omega
      have hne : ¬ ((pageAt server (k * n) n).length = n) := by
        rw [hlen]; omega
      have htake : pageAt server (k * n) n = server.drop (k * n) := by
        apply List.take_of_length_le
        rw [List.length_drop]
        omega
      simp only [fetchLoop]
      rw [if_neg hne, htake]
      simp [List.range_succ]
  | succ m ih =>
    intro k fuel acc reqs hk hfuel
    cases fuel with
    | zero => omega
    | succ f =>
      have hroom : n ≤ server.length - k * n := by
        have h1 : k + 1 ≤ server.length / n := by omega
        have h2 : (k + 1) * n ≤ server.length := (Nat.le_div_iff_mul_le hn).mp h1
        have h3 : k * n + n ≤ server.length := by
          calc k * n + n = (k + 1) * n := by ring
          _ ≤ server.length := h2
        generalize hK : k * n = K at h3 ⊢
        omega
      have hpl : (pageAt server (k * n) n).length = n := by
        simp only [pageAt, List.length_take, List.length_drop]
        omega
      have hnext : k * n + n = (k + 1) * n := by ring
      have hpage : pageAt server (k * n) n ++ server.drop ((k + 1) * n)
          = server.drop (k * n) := by
        have hdd : server.drop ((k + 1) * n) = (server.drop (k * n)).drop n := by
          rw [List.drop_drop]
          congr 1
          ring
        rw [hdd, pageAt, List.take_append_drop]
      have hreq : (List.range (m + 1 + 1)).map (fun i => (k + i) * n)
          = (k * n) :: (List.range (m + 1)).map (fun i => (k + 1 + i) * n) := by
        rw [List.range_succ_eq_map, List.map_cons, List.map_map]
        congr 1
        simp only [List.map_inj_left, Function.comp_apply, List.mem_range]
        intro a _
        simp only [Nat.succ_eq_add_one]
        ring
      simp only [fetchLoop]
      rw [if_pos hpl, hnext, ih (k + 1) f (acc ++ pageAt server (k * n) n)
        (reqs ++ [k * n]) (by omega) (by omega)]
      rw [List.append_assoc acc, hpage, hreq]
      simp

/-! ### Helper lemmas: the spatializer -/

theorem spatialize_some {records : List PointRecord} {out : List SpatialRow}
    {missing : List PointRecord}
    (h : spatialize_point_data records = some (out, missing)) :
    out = wgsGroup records ++ utmGroup records ∧ missing = missingCoordRows records := by
  unfold spatialize_point_data at h
  split at h
  · cases h
  · simp only [Option.some.injEq, Prod.mk.injEq] at h
    exact ⟨h.1.symm, h.2.symm⟩

theorem mem_groups_record {records : List PointRecord} {r : PointRecord} :
    r ∈ (wgsGroup records ++ utmGroup records).map SpatialRow.record
      ↔ (r ∈ (validCoordRows records).filter latBelow100
          ∨ r ∈ (validCoordRows records).filter latAbove100) := by
  simp [wgsGroup, utmGroup, List.map_map, Function.comp]

/-! ### Claim theorems: the spatializer -/

/-- C1 (amended).  For a successful spatialization run: every record with
a null latitude or longitude appears verbatim in the missing-coordinates
report and nowhere else, the report holds nothing but such records, and
every record with both coordinates present appears in the spatialized
output provided its latitude is not exactly 100; a record with both
coordinates present and latitude exactly 100 is dropped from both
outputs (the source filters with strict `< 100` and strict `> 100`). -/
theorem C1_missing_accounting (records : List PointRecord) (out : List SpatialRow)
    (missing : List PointRecord)
    (h : spatialize_point_data records = some (out, missing)) :
    (∀ r ∈ records, (r.latitude = none ∨ r.longitude = none) →
        r ∈ missing ∧ r ∉ out.map SpatialRow.record)
    ∧ (∀ r ∈ missing, r ∈ records ∧ (r.latitude = none ∨ r.longitude = none))
    ∧ (∀ r ∈ records, ∀ la lo : ℚ, r.latitude = some la → r.longitude = some lo →
        la ≠ 100 → r ∈ out.map SpatialRow.record)
    ∧ (∀ r ∈ records, r.longitude.isSome → r.latitude = some 100 →
        r ∉ missing ∧ r ∉ out.map SpatialRow.record) := by
  obtain ⟨hout, hmiss⟩ := spatialize_some h
  subst hout hmiss
  refine ⟨?_, ?_, ?_, ?_⟩
  · intro r hr hnull
    constructor
    · rw [missingCoordRows, List.mem_filter]
      refine ⟨hr, ?_⟩
      rcases hnull with h' | h' <;> simp [h']
    · rw [mem_groups_record]
      rintro (hmem | hmem) <;>
        · rcases List.mem_filter.mp hmem with ⟨hv, _⟩
          rcases List.mem_filter.mp hv with ⟨_, hsome⟩
          rcases hnull with h' | h' <;> simp [h'] at hsome
  · intro r hr
    rcases List.mem_filter.mp hr with ⟨hrec, hcond⟩
    refine ⟨hrec, ?_⟩
    simp only [Bool.or_eq_true, Option.isNone_iff_eq_none] at hcond
    exact hcond
  · intro r hr la lo hla hlo hne
    rw [mem_groups_record]
    have hv : r ∈ validCoordRows records := by
      rw [validCoordRows, List.mem_filter]
      exact ⟨hr, by simp [hla, hlo]⟩
    rcases lt_or_gt_of_ne hne with hlt | hgt
    · exact Or.inl (List.mem_filter.mpr ⟨hv, by simp [latBelow100, hla, hlt]⟩)
    · exact Or.inr (List.mem_filter.mpr ⟨hv, by simp [latAbove100, hla, hgt]⟩)
  · intro r hr hlo hla
    constructor
    · rw [missingCoordRows, List.mem_filter]
      rintro ⟨_, hcond⟩
      simp [hla, Option.isSome_iff_ne_none.mp hlo] at hcond
    · rw [mem_groups_record]
      rintro (hmem | hmem)
      · rcases List.mem_filter.mp hmem with ⟨_, hb⟩
        simp [latBelow100, hla] at hb
      · rcases List.mem_filter.mp hmem with ⟨_, hb⟩
        simp [latAbove100, hla] at hb

/-- C1 counterexample.  A record with both coordinates present and
latitude exactly 100 ("pointB") is dropped from the spatialized output
and from the missing-coordinates report alike: the claim's "no input
record is silently dropped from both" fails at latitude 100. -/
theorem C1_counterexample :
    spatialize_point_data
        [⟨some 40, some (-111), "pointA"⟩, ⟨some 100, some 5, "pointB"⟩]
      = some ([⟨⟨some 40, some (-111), "pointA"⟩, 4326, 3857⟩], [])
    ∧ (⟨some 100, some 5, "pointB"⟩ : PointRecord)
        ∉ ([⟨⟨some 40, some (-111), "pointA"⟩, 4326, 3857⟩] : List SpatialRow).map
            SpatialRow.record := by
  constructor
  · decide
  · decide

theorem C1_missing_accounting_witness :
    (⟨none, some 1, "pointM"⟩ : PointRecord)
      ∈ ([⟨none, some 1, "pointM"⟩] : List PointRecord) := by
  have h := C1_missing_accounting
      [⟨none, some (1 : ℚ), "pointM"⟩, ⟨some 40, some 2, "pointN"⟩]
      [⟨⟨some 40, some 2, "pointN"⟩, 4326, 3857⟩]
      [⟨none, some 1, "pointM"⟩]
      (by decide)
  exact (h.1 ⟨none, some 1, "pointM"⟩ (by decide) (Or.inl rfl)).1

/-- C2 (amended).  For a successful spatialization run: every output row
carries the final spatial reference 3857; each output row was built in
4326 or 26912; a record with latitude < 100 lands exactly in the
geographic (4326) group and one with latitude > 100 exactly in the
projected (26912) group; a record with latitude exactly 100 lands in
neither group (the source uses strict `> 100` for the projected group,
not `>= 100` as claimed). -/
theorem C2_datum_split (records : List PointRecord) (out : List SpatialRow)
    (missing : List PointRecord)
    (h : spatialize_point_data records = some (out, missing)) :
    (∀ s ∈ out, s.crs = 3857)
    ∧ (∀ s ∈ out, s.sourceCrs = 4326 ∨ s.sourceCrs = 26912)
    ∧ (∀ r ∈ records, ∀ la lo : ℚ, r.latitude = some la → r.longitude = some lo →
        ((la < 100 → SpatialRow.mk r 4326 3857 ∈ out ∧ SpatialRow.mk r 26912 3857 ∉ out)
         ∧ (100 < la → SpatialRow.mk r 26912 3857 ∈ out ∧ SpatialRow.mk r 4326 3857 ∉ out)
         ∧ (la = 100 → SpatialRow.mk r 4326 3857 ∉ out ∧ SpatialRow.mk r 26912 3857 ∉ out))) := by
  obtain ⟨hout, _⟩ := spatialize_some h
  subst hout
  have hmemw : ∀ r : PointRecord,
      SpatialRow.mk r 4326 3857 ∈ wgsGroup records ++ utmGroup records
        ↔ r ∈ (validCoordRows records).filter latBelow100 := by
    intro r
    simp [wgsGroup, utmGroup, List.mem_append, List.mem_map, SpatialRow.mk.injEq]
  have hmemu : ∀ r : PointRecord,
      SpatialRow.mk r 26912 3857 ∈ wgsGroup records ++ utmGroup records
        ↔ r ∈ (validCoordRows records).filter latAbove100 := by
    intro r
    simp [wgsGroup, utmGroup, List.mem_append, List.mem_map, SpatialRow.mk.injEq]
  refine ⟨?_, ?_, ?_⟩
  · intro s hs
    rcases List.mem_append.mp hs with hm | hm <;>
      · obtain ⟨r', _, rfl⟩ := List.mem_map.mp hm
        rfl
  · intro s hs
    rcases List.mem_append.mp hs with hm | hm
    · obtain ⟨r', _, rfl⟩ := List.mem_map.mp hm
      exact Or.inl rfl
    · obtain ⟨r', _, rfl⟩ := List.mem_map.mp hm
      exact Or.inr rfl
  · intro r hr la lo hla hlo
    have hv : r ∈ validCoordRows records := by
      rw [validCoordRows, List.mem_filter]
      exact ⟨hr, by simp [hla, hlo]⟩
    refine ⟨?_, ?_, ?_⟩
    · intro hlt
      constructor
      · exact (hmemw r).mpr (List.mem_filter.mpr ⟨hv, by simp [latBelow100, hla, hlt]⟩)
      · intro hmem
        rcases List.mem_filter.mp ((hmemu r).mp hmem) with ⟨_, hb⟩
        simp only [latAbove100, hla, decide_eq_true_eq] at hb
        exact absurd hb (by linarith)
    · intro hgt
      constructor
      · exact (hmemu r).mpr (List.mem_filter.mpr ⟨hv, by simp [latAbove100, hla, hgt]⟩)
      · intro hmem
        rcases List.mem_filter.mp ((hmemw r).mp hmem) with ⟨_, hb⟩
        simp only [latBelow100, hla, decide_eq_true_eq] at hb
        exact absurd hb (by linarith)
    · intro heq
      subst heq
      constructor
      · intro hmem
        rcases List.mem_filter.mp ((hmemw r).mp hmem) with ⟨_, hb⟩
        simp [latBelow100, hla] at hb
      · intro hmem
        rcases List.mem_filter.mp ((hmemu r).mp hmem) with ⟨_, hb⟩
        simp [latAbove100, hla] at hb

/-- C2 counterexample.  A record with latitude exactly 100 ("pointD") is
not assigned to the projected (26912) group — nor to any group — so the
claim's "latitude >= 100, including latitude == 100, goes to the
projected group" fails at the boundary. -/
theorem C2_counterexample :
    spatialize_point_data
        [⟨some 41, some (-112), "pointC"⟩, ⟨some 100, some 6, "pointD"⟩]
      = some ([⟨⟨some 41, some (-112), "pointC"⟩, 4326, 3857⟩], [])
    ∧ (⟨⟨some 100, some 6, "pointD"⟩, 26912, 3857⟩ : SpatialRow)
        ∉ ([⟨⟨some 41, some (-112), "pointC"⟩, 4326, 3857⟩] : List SpatialRow) := by
  constructor
  · decide
  · decide

theorem C2_datum_split_witness :
    (⟨⟨some 40, some 2, "pointE"⟩, 4326, 3857⟩ : SpatialRow)
      ∈ ([⟨⟨some 40, some 2, "pointE"⟩, 4326, 3857⟩] : List SpatialRow) := by
  have h := C2_datum_split [⟨some 40, some 2, "pointE"⟩]
      [⟨⟨some 40, some 2, "pointE"⟩, 4326, 3857⟩] [] (by decide)
  exact ((h.2.2 ⟨some 40, some 2, "pointE"⟩ (by decide) 40 2 rfl rfl).1 (by norm_num)).1

/-! ### Claim theorems: the paginated fetcher -/

/-- C3 (confirmed).  For every page size n ≥ 1 and enough fuel, the
fetcher requests exactly the offsets 0, n, 2n, …, (⌊N/n⌋)·n, returns
every record of the source in arrival order, each page before the last
has length exactly n, the last requested page is strictly short, and
when n divides N that last request (at offset N itself) yields the empty
page; concretely, pageSize 2 against a 5-record source returns 5 records
after requests at offsets 0, 2, 4, the last page (1 record) being
short. -/
theorem C3_pagination {α : Type} (server : List α) (n fuel : Nat) (hn : 0 < n)
    (hfuel : server.length / n < fuel) :
    load_records_from_graphql server n fuel
        = some (server, (List.range (server.length / n + 1)).map (fun i => i * n))
    ∧ (∀ i < server.length / n, (pageAt server (i * n) n).length = n)
    ∧ (pageAt server (server.length / n * n) n).length < n
    ∧ (n ∣ server.length → pageAt server server.length n = []
        ∧ server.length / n * n = server.length)
    ∧ load_records_from_graphql [0, 1, 2, 3, 4] 2 9 = some ([0, 1, 2, 3, 4], [0, 2, 4]) := by
  refine ⟨?_, ?_, ?_, ?_, by decide⟩
  · have h := fetchLoop_go server n hn (server.length / n) 0 fuel [] [] (by omega) hfuel
    rw [Nat.zero_mul] at h
    unfold load_records_from_graphql
    rw [h]
    simp
  · intro i hi
    have h2 : (i + 1) * n ≤ server.length := (Nat.le_div_iff_mul_le hn).mp (by omega)
    have h3 : i * n + n ≤ server.length := by
      calc i * n + n = (i + 1) * n := by ring
      _ ≤ server.length := h2
    simp only [pageAt, List.length_take, List.length_drop]
    generalize hK : i * n = K at h3 ⊢
    omega
  · have hmod := Nat.div_add_mod server.length n
    have hlt := Nat.mod_lt server.length hn
    simp only [pageAt, List.length_take, List.length_drop]
    rw [Nat.mul_comm] at hmod
    generalize hP : server.length / n * n = P at hmod ⊢
    omega
  · intro hdvd
    constructor
    · simp [pageAt]
    · exact Nat.div_mul_cancel hdvd

theorem C3_pagination_witness :
    load_records_from_graphql ([7] : List Nat) 1 2 = some ([7], [0, 1]) := by
  have h := C3_pagination ([7] : List Nat) 1 2 (by decide) (by decide)
  rw [h.1]
  decide

/-- C10 (confirmed).  With `limit = 0` the initial `result_length = limit`
makes the loop condition hold, and every (necessarily empty) response
page has length 0 = limit, so the loop never terminates: for every
amount of fuel, against every source, the fetch fails to return. -/
theorem C10_zero_limit {α : Type} (server : List α) (fuel : Nat) :
    load_records_from_graphql server 0 fuel = none
    ∧ ∀ (offset : Nat) (acc : List α) (reqs : List Nat),
        fetchLoop server 0 fuel offset acc reqs = none := by
  have hloop : ∀ (f offset : Nat) (acc : List α) (reqs : List Nat),
      fetchLoop server 0 f offset acc reqs = none := by
    intro f
    induction f with
    | zero => intro offset acc reqs; rfl
    | succ f ih =>
      intro offset acc reqs
      simp only [fetchLoop]
      rw [if_pos (by simp [pageAt])]
      exact ih (offset + 0) (acc ++ pageAt server offset 0) (reqs ++ [offset])
  exact ⟨hloop fuel 0 [] [], fun offset acc reqs => hloop fuel offset acc reqs⟩

/-! ### Claim theorems: the ZIP cleaner -/

/-- C5 (amended).  The ZIP treatment truncates the stringified cell to
its first 5 characters and coerces to integer, so a ZIP+4 string
"84093-1234" becomes 84093, and a successful column conversion neither
adds nor removes a row; but a genuinely missing ZIP is stringified by
`astype(str)` to the literal "nan", whose integer coercion raises, so a
missing value makes the whole cleaning raise instead of becoming
null. -/
theorem C5_zip_cleaning :
    (∀ (col : List (Option String)) (out : List Int),
        cleanZipColumn col = some out → out.length = col.length)
    ∧ cleanZipCell (some "84093-1234") = some 84093
    ∧ (∀ col : List (Option String), none ∈ col → cleanZipColumn col = none) := by
  refine ⟨?_, by decide, ?_⟩
  · intro col out h
    exact optionMap_length cleanZipCell h
  · intro col hcol
    exact optionMap_none cleanZipCell hcol (by decide)

/-- C5 counterexample.  A column holding the ZIP+4 value and one
genuinely missing value makes the conversion raise (`none`), where the
claim promises the missing value would become null in the output. -/
theorem C5_counterexample :
    cleanZipColumn [some "84093-1234", none] = none := by decide

theorem C5_zip_cleaning_witness :
    ([(84093 : Int)] : List Int).length
        = ([some "84093-1234"] : List (Option String)).length
    ∧ cleanZipColumn [none] = none := by
  constructor
  · exact C5_zip_cleaning.1 [some "84093-1234"] [84093] (by decide)
  · exact C5_zip_cleaning.2.2 [none] (by decide)

/-! ### Claim theorems: the sheet loaders -/

/-- C9 (amended).  Only the approved-systems loader promotes the second
physical row to column names, discards the artifact row and converts
empty-string cells to the null sentinel; the interactive-links loader
returns the sheet as-is (first physical row as header, empty strings
untouched — its empty-string conversion happens later, inside
`clean_system_links`). -/
theorem C9_sheet_loading (sheet : List (List String)) (r0 r1 : List String)
    (rest : List (List String)) (h : sheet = r0 :: r1 :: rest) :
    load_systems_from_sheet sheet
        = { header := r1, rows := rest.map (fun row => row.map emptyToNa) }
    ∧ load_system_links_from_gsheet sheet
        = { header := r0, rows := (r1 :: rest).map (fun row => row.map some) } := by
  subst h
  constructor
  · unfold load_systems_from_sheet gsheetLoad
    simp only [List.headD_cons, List.map_cons, List.drop_succ_cons, List.drop_zero,
      List.map_map]
    congr 1
    · have hid : ((fun c : Option String => c.getD "") ∘ some) = fun s : String => s := by
        funext s; rfl
      rw [hid]
      simp
    · apply List.map_congr_left
      intro row _
      simp only [Function.comp_apply, List.map_map]
      apply List.map_congr_left
      intro s _
      simp only [Function.comp_apply, emptyToNa]
      by_cases hs : s = "" <;> simp [hs]
  · rfl

/-- C9 counterexample.  On a concrete 3-row sheet the links loader keeps
the artifact first row as the header and leaves the empty-string cell
intact — it does not apply the claimed promotion/null-conversion that
the systems loader applies. -/
theorem C9_counterexample :
    load_system_links_from_gsheet [["artifact"], ["PWSID"], [""]]
        = { header := ["artifact"], rows := [[some "PWSID"], [some ""]] }
    ∧ load_systems_from_sheet [["artifact"], ["PWSID"], [""]]
        = { header := ["PWSID"], rows := [[none]] }
    ∧ load_system_links_from_gsheet [["artifact"], ["PWSID"], [""]]
        ≠ load_systems_from_sheet [["artifact"], ["PWSID"], [""]] := by
  refine ⟨rfl, rfl, by decide⟩

theorem C9_sheet_loading_witness :
    load_systems_from_sheet [["a"], ["h1", "h2"], ["x", ""]]
        = { header := ["h1", "h2"], rows := [[some "x", none]] } := by
  have h := C9_sheet_loading [["a"], ["h1", "h2"], ["x", ""]] ["a"] ["h1", "h2"]
      [["x", ""]] rfl
  exact h.1.trans (by decide)

/-! ### Helper lemmas: the approved-systems and links cleaners -/

theorem getLastQ_isSome {α : Type} : ∀ {l : List α}, l ≠ [] → ∃ a, l.getLast? = some a
  | [], h => absurd rfl h
  | [x], _ => ⟨x, rfl⟩
  | _ :: y :: ys, _ => by
      obtain ⟨a, ha⟩ := getLastQ_isSome (l := y :: ys) (by simp)
      exact ⟨a, by rw [List.getLast?_cons_cons]; exact ha⟩

theorem clean_approved_eq {rows : List ApprovedRaw} {parsed : List ApprovedClean}
    {out : List ApprovedClean} {inv : List String}
    (hp : optionMap parseApprovedRow (approvedValidRows rows) = some parsed)
    (h : clean_approved_systems rows = some (out, inv)) :
    out = dedupApproved parsed ∧ inv = approvedInvalid rows := by
  unfold clean_approved_systems at h
  rw [hp] at h
  simp only [Option.pure_def, Option.bind_eq_bind, Option.some_bind,
    Option.some.injEq, Prod.mk.injEq] at h
  exact ⟨h.1.symm, h.2.symm⟩

theorem clean_links_eq {rows : List LinkRaw} {parsed : List LinkClean}
    {kept : List LinkClean} {report : List (Option String × Int)}
    (hp : optionMap parseLinkRow (linkPresentRows rows) = some parsed)
    (h : clean_system_links rows = some (kept, report)) :
    kept = dropDupKeepLast (fun c : LinkClean => c.pwsid) parsed
    ∧ report = dictOfPairs (fun c : LinkClean => c.name) (fun c => c.pwsid)
        (parsed.filter (fun c => 2 ≤ parsed.countP (fun d => d.pwsid = c.pwsid))) := by
  unfold clean_system_links at h
  rw [hp] at h
  simp only [Option.pure_def, Option.bind_eq_bind, Option.some_bind,
    Option.some.injEq, Prod.mk.injEq] at h
  exact ⟨h.1.symm, h.2.symm⟩

/-! ### Claim theorems: approved-systems deduplication and validation -/

/-- C6 (confirmed).  Among the cleaned approved-system rows sharing one
normalized identifier, when their timestamps are pairwise distinct,
exactly the row with the maximum `submitted_time` survives the
sort-then-drop-duplicates step; in particular the two-row
"Utah1234"/"1/1/2024"-"1/2/2024" scenario retains only the later row,
with PWSID 1234. -/
theorem C6_latest_wins (rows : List ApprovedRaw) (parsed out : List ApprovedClean)
    (inv : List String) (p : Int)
    (hp : optionMap parseApprovedRow (approvedValidRows rows) = some parsed)
    (h : clean_approved_systems rows = some (out, inv))
    (hmem : p ∈ parsed.map (fun c => c.pwsid))
    (hdist : (parsed.filter (fun c => c.pwsid = p)).Pairwise
        (fun a b => a.submitted_time ≠ b.submitted_time)) :
    (∃ r, out.filter (fun c => c.pwsid = p) = [r] ∧ r ∈ parsed ∧ r.pwsid = p
        ∧ ∀ q ∈ parsed, q.pwsid = p → q ≠ r → q.submitted_time < r.submitted_time)
    ∧ clean_approved_systems
        [{ pwsId := some "Utah1234", time := "1/1/2024", name := some "n1",
           approved := some "Accept", classification := some "SC" },
         { pwsId := some "Utah1234", time := "1/2/2024", name := some "n2",
           approved := some "Accept", classification := some "SC" }]
      = some ([{ pwsid := 1234, submitted_time := ((2024 * 12 + 1) * 31 + 2) * 1440,
                 name := some "n2", approved := some "Accept",
                 classification := some "SC", area_type := "Approved System" }], []) := by
  obtain ⟨hout, _⟩ := clean_approved_eq hp h
  subst hout
  refine ⟨?_, by decide⟩
  have hperm : List.Perm (parsed.insertionSort timeLE) parsed :=
    List.perm_insertionSort timeLE parsed
  have hpermf : List.Perm ((parsed.insertionSort timeLE).filter (fun c => c.pwsid = p))
      (parsed.filter (fun c => c.pwsid = p)) := hperm.filter _
  have hnefil : parsed.filter (fun c => c.pwsid = p) ≠ [] := by
    obtain ⟨c, hc, hcp⟩ := List.mem_map.mp hmem
    intro hnil
    have hmemf : c ∈ parsed.filter (fun c => c.pwsid = p) :=
      List.mem_filter.mpr ⟨hc, by simp [hcp]⟩
    rw [hnil] at hmemf
    cases hmemf
  have hnes : (parsed.insertionSort timeLE).filter (fun c => c.pwsid = p) ≠ [] := by
    intro hnil
    apply hnefil
    have := hpermf.length_eq
    rw [hnil] at this
    exact List.length_eq_zero.mp this.symm
  obtain ⟨r, hr⟩ := getLastQ_isSome hnes
  refine ⟨r, ?_, ?_, ?_, ?_⟩
  · rw [dedupApproved, dropDupKeepLast_filter, hr]
    rfl
  · have : r ∈ (parsed.insertionSort timeLE).filter (fun c => c.pwsid = p) :=
      getLastQ_mem _ _ hr
    exact hperm.mem_iff.mp (List.mem_filter.mp this).1
  · have : r ∈ (parsed.insertionSort timeLE).filter (fun c => c.pwsid = p) :=
      getLastQ_mem _ _ hr
    have := (List.mem_filter.mp this).2
    simpa using this
  · intro q hq hqp hqr
    have hsorted : (parsed.insertionSort timeLE).Pairwise timeLE :=
      List.sorted_insertionSort timeLE parsed
    have hsortedf : ((parsed.insertionSort timeLE).filter
        (fun c => c.pwsid = p)).Pairwise timeLE :=
      List.Pairwise.sublist (List.filter_sublist _) hsorted
    have hqmem : q ∈ (parsed.insertionSort timeLE).filter (fun c => c.pwsid = p) := by
      rw [List.mem_filter]
      exact ⟨hperm.mem_iff.mpr hq, by simp [hqp]⟩
    have hle : q = r ∨ timeLE q r := pairwise_getLast_max hsortedf hr hqmem
    have hrmem : r ∈ parsed.filter (fun c => c.pwsid = p) :=
      hpermf.mem_iff.mp (getLastQ_mem _ _ hr)
    have hqmem' : q ∈ parsed.filter (fun c => c.pwsid = p) :=
      List.mem_filter.mpr ⟨hq, by simp [hqp]⟩
    have hsym : Symmetric (fun a b : ApprovedClean =>
        a.submitted_time ≠ b.submitted_time) := fun a b hab => hab.symm
    have hne := List.Pairwise.forall hsym hdist hqmem' hrmem hqr
    rcases hle with rfl | hle
    · exact absurd rfl hqr
    · exact lt_of_le_of_ne hle hne

theorem C6_latest_wins_witness :
    clean_approved_systems
        [{ pwsId := some "Utah1234", time := "1/1/2024", name := some "n1",
           approved := some "Accept", classification := some "SC" },
         { pwsId := some "Utah1234", time := "1/2/2024", name := some "n2",
           approved := some "Accept", classification := some "SC" }]
      = some ([{ pwsid := 1234, submitted_time := ((2024 * 12 + 1) * 31 + 2) * 1440,
                 name := some "n2", approved := some "Accept",
                 classification := some "SC", area_type := "Approved System" }], []) := by
  have h := C6_latest_wins
      [{ pwsId := some "Utah1234", time := "1/1/2024", name := some "n1",
         approved := some "Accept", classification := some "SC" },
       { pwsId := some "Utah1234", time := "1/2/2024", name := some "n2",
         approved := some "Accept", classification := some "SC" }]
      [{ pwsid := 1234, submitted_time := ((2024 * 12 + 1) * 31 + 1) * 1440,
         name := some "n1", approved := some "Accept",
         classification := some "SC", area_type := "Approved System" },
       { pwsid := 1234, submitted_time := ((2024 * 12 + 1) * 31 + 2) * 1440,
         name := some "n2", approved := some "Accept",
         classification := some "SC", area_type := "Approved System" }]
      [{ pwsid := 1234, submitted_time := ((2024 * 12 + 1) * 31 + 2) * 1440,
         name := some "n2", approved := some "Accept",
         classification := some "SC", area_type := "Approved System" }]
      [] 1234 (by decide) (by decide) (by decide) (by decide)
  exact h.2

/-- C7 (amended).  Every identifier containing no digits (the `utah`
prefix characters contain none, so this is the same as containing no
digits after the prefix strip) is excluded from the approved-systems
output and recorded verbatim in the invalid-identifiers report, and
every surviving output row comes from a digit-bearing identifier whose
normalization (lowercase, strip u/t/a/h from both ends, integer cast)
succeeded; a digit-bearing identifier whose stripped remainder is not a
pure digit string (e.g. "1a2") instead makes the cleaning raise — it is
not kept.  The "Valley Water System" scenario is included verbatim. -/
theorem C7_invalid_ids (rows : List ApprovedRaw) (out : List ApprovedClean)
    (inv : List String)
    (h : clean_approved_systems rows = some (out, inv)) :
    (∀ s : String, (∃ r, r ∈ rows ∧ r.pwsId = some s) → hasDigit s = false → s ∈ inv)
    ∧ (∀ c ∈ out, ∃ r, r ∈ approvedValidRows rows ∧ hasDigit (approvedIdStr r) = true
        ∧ pwsidNorm (approvedIdStr r) = some c.pwsid)
    ∧ clean_approved_systems
        [{ pwsId := some "Utah1234", time := "1/23/2024 15:55", name := some "foo",
           approved := some "Accept", classification := some "SC" },
         { pwsId := some "Valley Water System", time := "1/1/2024 15:55",
           name := some "foo", approved := some "Reject", classification := some "SC" }]
      = some ([{ pwsid := 1234,
                 submitted_time := ((2024 * 12 + 1) * 31 + 23) * 1440 + 15 * 60 + 55,
                 name := some "foo", approved := some "Accept",
                 classification := some "SC", area_type := "Approved System" }],
              ["Valley Water System"]) := by
  cases hop : optionMap parseApprovedRow (approvedValidRows rows) with
  | none =>
    unfold clean_approved_systems at h
    rw [hop] at h
    cases h
  | some parsed =>
    obtain ⟨hout, hinv⟩ := clean_approved_eq hop h
    subst hout hinv
    refine ⟨?_, ?_, by decide⟩
    · intro s hs hnd
      obtain ⟨r, hr, hrs⟩ := hs
      have hpres : r ∈ approvedPresentRows rows := by
        rw [approvedPresentRows, List.mem_filter]
        exact ⟨hr, by simp [hrs]⟩
      have hid : approvedIdStr r = s := by
        rw [approvedIdStr, hrs]
        rfl
      rw [approvedInvalid, List.mem_filter]
      constructor
      · exact List.mem_map.mpr ⟨r, hpres, hid⟩
      · simp [hnd]
    · intro c hc
      have hcs : c ∈ parsed.insertionSort timeLE :=
        dropDupKeepLast_subset _ hc
      have hcp : c ∈ parsed := (List.perm_insertionSort timeLE parsed).mem_iff.mp hcs
      obtain ⟨r, hr, hparse⟩ := optionMap_mem parseApprovedRow hop hcp
      refine ⟨r, hr, ?_, ?_⟩
      · rw [approvedValidRows, List.mem_filter] at hr
        simpa using hr.2
      · unfold parseApprovedRow at hparse
        cases hn : pwsidNorm (approvedIdStr r) with
        | none => rw [hn] at hparse; cases hparse
        | some q =>
          rw [hn] at hparse
          cases ht : parseMDY r.time with
          | none => rw [ht] at hparse; cases hparse
          | some t =>
            rw [ht] at hparse
            simp only [Option.pure_def, Option.bind_eq_bind, Option.some_bind,
              Option.some.injEq] at hparse
            rw [← hparse]

/-- C7 counterexample.  The identifier "1a2" contains a digit, so the
claim says it is kept and normalized to an integer; instead its stripped
remainder "1a2" is not a pure digit string, `astype(int)` raises, and
the whole cleaning fails rather than keeping the row. -/
theorem C7_counterexample :
    clean_approved_systems
        [{ pwsId := some "1a2", time := "1/1/2024", name := some "n",
           approved := some "Accept", classification := none }] = none := by decide

theorem C7_invalid_ids_witness :
    ("Valley Water System" : String) ∈ (["Valley Water System"] : List String) := by
  have h := C7_invalid_ids
      [{ pwsId := some "Utah1234", time := "1/23/2024 15:55", name := some "foo",
         approved := some "Accept", classification := some "SC" },
       { pwsId := some "Valley Water System", time := "1/1/2024 15:55",
         name := some "foo", approved := some "Reject", classification := some "SC" }]
      [{ pwsid := 1234,
         submitted_time := ((2024 * 12 + 1) * 31 + 23) * 1440 + 15 * 60 + 55,
         name := some "foo", approved := some "Accept",
         classification := some "SC", area_type := "Approved System" }]
      ["Valley Water System"] (by decide)
  refine h.1 "Valley Water System" ?_ (by decide)
  refine ⟨{ pwsId := some "Valley Water System", time := "1/1/2024 15:55",
            name := some "foo", approved := some "Reject",
            classification := some "SC" }, ?_, rfl⟩
  simp

/-! ### Claim theorems: links deduplication and duplicate report -/

/-- C8 (amended).  In links cleaning, the duplicate report is a Python
dict keyed by system name: the name of every duplicate row appears among
the report's keys, but a later duplicate row with the same name
overwrites an earlier row's pair, so not every duplicate row's
name-to-identifier pair survives in the report; the kept set retains
exactly the last-seen row for each identifier. -/
theorem C8_duplicate_links (rows : List LinkRaw) (parsed kept : List LinkClean)
    (report : List (Option String × Int))
    (hp : optionMap parseLinkRow (linkPresentRows rows) = some parsed)
    (h : clean_system_links rows = some (kept, report)) :
    (∀ c ∈ parsed, 2 ≤ parsed.countP (fun d => d.pwsid = c.pwsid) →
        c.name ∈ report.map Prod.fst)
    ∧ (∀ p : Int, kept.filter (fun c => c.pwsid = p)
        = ((parsed.filter (fun c => c.pwsid = p)).getLast?).toList) := by
  obtain ⟨hkept, hrep⟩ := clean_links_eq hp h
  subst hkept hrep
  constructor
  · intro c hc hdup
    rw [mem_keys_dictOfPairs]
    apply List.mem_map.mpr
    refine ⟨c, ?_, rfl⟩
    rw [List.mem_filter]
    exact ⟨hc, by simpa using hdup⟩
  · intro p
    exact dropDupKeepLast_filter _ p _

/-- C8 counterexample.  Four duplicate rows sharing the single name "A"
(two with identifier 1, two with identifier 2) produce the report
{"A": 2}: the pair ("A", 1) contributed by the first two duplicate rows
is overwritten and absent, refuting "every duplicate row contributes its
name-to-identifier pair to the report". -/
theorem C8_counterexample :
    clean_system_links
        [{ pwsid := "utah1", name := "A", link := "l1" },
         { pwsid := "utah1", name := "A", link := "l2" },
         { pwsid := "utah2", name := "A", link := "l3" },
         { pwsid := "utah2", name := "A", link := "l4" }]
      = some ([{ pwsid := 1, name := some "A", link := some "l2", area_type := "Link" },
               { pwsid := 2, name := some "A", link := some "l4", area_type := "Link" }],
              [(some "A", 2)])
    ∧ (some "A", (1 : Int)) ∉ ([(some "A", (2 : Int))] : List (Option String × Int)) := by
  exact ⟨by decide, by decide⟩

theorem C8_duplicate_links_witness :
    (some "A" : Option String)
      ∈ ([(some "A", (2 : Int))] : List (Option String × Int)).map Prod.fst := by
  have h := C8_duplicate_links
      [{ pwsid := "utah1", name := "A", link := "l1" },
       { pwsid := "utah1", name := "A", link := "l2" },
       { pwsid := "utah2", name := "A", link := "l3" },
       { pwsid := "utah2", name := "A", link := "l4" }]
      [{ pwsid := 1, name := some "A", link := some "l1", area_type := "Link" },
       { pwsid := 1, name := some "A", link := some "l2", area_type := "Link" },
       { pwsid := 2, name := some "A", link := some "l3", area_type := "Link" },
       { pwsid := 2, name := some "A", link := some "l4", area_type := "Link" }]
      [{ pwsid := 1, name := some "A", link := some "l2", area_type := "Link" },
       { pwsid := 2, name := some "A", link := some "l4", area_type := "Link" }]
      [(some "A", 2)] (by decide) (by decide)
  exact h.1 { pwsid := 1, name := some "A", link := some "l1", area_type := "Link" }
      (by decide) (by decide)

/-! ### Helper lemmas: counting under pointwise-equal predicates -/

theorem countP_mem_congr {α : Type} {f g : α → Bool} :
    ∀ {l : List α}, (∀ a ∈ l, f a = g a) → l.countP f = l.countP g := by
  intro l
  induction l with
  | nil => intro _; rfl
  | cons a as ih =>
    intro h
    rw [List.countP_cons, List.countP_cons, h a (by simp),
      ih (fun b hb => h b (by simp [hb]))]

/-! ### Claim theorems: the merge -/

/-- C4 (amended).  Assuming the approved set and the links set carry
pairwise distinct PWSIDs (in particular no identifier occurs in both —
the source concatenates the two sets without cross-deduplication) and
the geometry table has at most one row per PWSID: every PWSID of the
union appears exactly once among the merged rows; a PWSID with no
matching geometry appears among the missing-geometry report's keys and
contributes no row to the final table; a PWSID with a matching geometry
contributes exactly one final row and is absent from the report. -/
theorem C4_merge_reconciliation (systems links : List SystemRow) (geoms : List GeomRow)
    (hnd : ((systems ++ links).map (fun s => s.pwsid)).Nodup)
    (hgeo : (geoms.map (fun g => g.pwsid)).Nodup)
    (p : Int) (hp : p ∈ (systems ++ links).map (fun s => s.pwsid)) :
    ((merge_systems_and_geometries systems links geoms).merged.countP
        (fun m => m.sys.pwsid = p) = 1)
    ∧ (p ∉ geoms.map (fun g => g.pwsid) →
        p ∈ ((merge_systems_and_geometries systems links geoms).missing_geometries.map
              Prod.fst)
        ∧ (merge_systems_and_geometries systems links geoms).final_systems.countP
            (fun m => m.sys.pwsid = p) = 0)
    ∧ (p ∈ geoms.map (fun g => g.pwsid) →
        (merge_systems_and_geometries systems links geoms).final_systems.countP
            (fun m => m.sys.pwsid = p) = 1
        ∧ p ∉ ((merge_systems_and_geometries systems links geoms).missing_geometries.map
              Prod.fst)) := by
  have hmerged : (merge_systems_and_geometries systems links geoms).merged
      = leftJoinGeoms (systems ++ links) geoms := rfl
  have hfinal : (merge_systems_and_geometries systems links geoms).final_systems
      = (leftJoinGeoms (systems ++ links) geoms).filter (fun m => m.geom.isSome) := rfl
  have hmissing : (merge_systems_and_geometries systems links geoms).missing_geometries
      = missingGeomReport ((leftJoinGeoms (systems ++ links) geoms).filter
          (fun m => m.geom.isNone)) := rfl
  have hcount : (leftJoinGeoms (systems ++ links) geoms).countP
      (fun m => m.sys.pwsid = p) = 1 := leftJoin_countP_one hnd hp hgeo
  have hkeys : ∀ q : Int,
      q ∈ ((merge_systems_and_geometries systems links geoms).missing_geometries.map
            Prod.fst)
        ↔ q ∈ ((leftJoinGeoms (systems ++ links) geoms).filter
            (fun m => m.geom.isNone)).map (fun m => m.sys.pwsid) := by
    intro q
    rw [hmissing, missingGeomReport, mem_keys_dictOfPairs]
    exact (List.Perm.map _ (List.perm_insertionSort _ _)).mem_iff
  refine ⟨by rw [hmerged]; exact hcount, ?_, ?_⟩
  · intro hnogeo
    obtain ⟨m, hm, hmp⟩ := List.countP_pos_iff.mp (by omega : 0 <
      (leftJoinGeoms (systems ++ links) geoms).countP (fun m => m.sys.pwsid = p))
    simp only [decide_eq_true_eq] at hmp
    have hnone : m.geom = none := by
      rw [leftJoin_geom_none hm, hmp]
      exact hnogeo
    constructor
    · rw [hkeys p]
      apply List.mem_map.mpr
      refine ⟨m, ?_, hmp⟩
      rw [List.mem_filter]
      exact ⟨hm, by simp [hnone]⟩
    · rw [hfinal, List.countP_eq_zero]
      intro m' hm'
      rcases List.mem_filter.mp hm' with ⟨hm'm, hsome⟩
      simp only [decide_eq_true_eq]
      intro hp'
      have : m'.geom = none := by
        rw [leftJoin_geom_none hm'm, hp']
        exact hnogeo
      rw [this] at hsome
      cases hsome
  · intro hgeomem
    constructor
    · rw [hfinal, List.countP_filter]
      have hpoint : ∀ m ∈ leftJoinGeoms (systems ++ links) geoms,
          (decide (m.sys.pwsid = p) && m.geom.isSome) = decide (m.sys.pwsid = p) := by
        intro m hm
        by_cases hmp : m.sys.pwsid = p
        · have hsome : m.geom ≠ none := by
            intro hnone
            have := (leftJoin_geom_none hm).mp hnone
            rw [hmp] at this
            exact this hgeomem
          have : m.geom.isSome = true := by
            cases hg : m.geom with
            | none => exact absurd hg hsome
            | some g => rfl
          simp [hmp, this]
        · simp [hmp]
      rw [countP_mem_congr hpoint]
      exact hcount
    · rw [hkeys p]
      intro hmem
      obtain ⟨m, hm, hmp⟩ := List.mem_map.mp hmem
      rcases List.mem_filter.mp hm with ⟨hmm, hnone⟩
      have : m.geom = none := by
        cases hg : m.geom with
        | none => rfl
        | some g => rw [hg] at hnone; cases hnone
      have hnot := (leftJoin_geom_none hmm).mp this
      rw [hmp] at hnot
      exact hnot hgeomem

/-- C4 counterexample.  PWSID 1 occurs both in the approved set and in
the links set (the source does not deduplicate across the two), and has
a matching geometry: it then appears twice among the merged rows and
twice in the final reconciled table, refuting "appears exactly once". -/
theorem C4_counterexample :
    ((merge_systems_and_geometries
        [{ pwsid := 1, name := "a", classification := some "SC",
           area_type := "Approved System" }]
        [{ pwsid := 1, name := "b", classification := none, area_type := "Link" }]
        [{ pwsid := 1, fid := 7, area := "g" }]).merged.countP
      (fun m => m.sys.pwsid = 1) = 2)
    ∧ ((merge_systems_and_geometries
        [{ pwsid := 1, name := "a", classification := some "SC",
           area_type := "Approved System" }]
        [{ pwsid := 1, name := "b", classification := none, area_type := "Link" }]
        [{ pwsid := 1, fid := 7, area := "g" }]).final_systems.countP
      (fun m => m.sys.pwsid = 1) = 2) := by
  exact ⟨by decide, by decide⟩

theorem C4_merge_reconciliation_witness :
    (merge_systems_and_geometries
        [{ pwsid := 1, name := "a", classification := some "SC",
           area_type := "Approved System" }]
        [{ pwsid := 2, name := "b", classification := none, area_type := "Link" }]
        [{ pwsid := 1, fid := 7, area := "g" }]).final_systems.countP
      (fun m => m.sys.pwsid = 1) = 1 := by
  have h := C4_merge_reconciliation
      [{ pwsid := 1, name := "a", classification := some "SC",
         area_type := "Approved System" }]
      [{ pwsid := 2, name := "b", classification := none, area_type := "Link" }]
      [{ pwsid := 1, fid := 7, area := "g" }]
      (by decide) (by decide) 1 (by decide)
  exact (h.2.2 (by decide)).1
